import Mathlib

/-!
Verification of the nexus-core streaming/transcription platform against its
specification.  The zod schemas (`TranscriptionEventSchema`,
`WebSocketMessageSchema`) and the agent tool `handleTranscriptionEvent` are
embedded from the TypeScript source; the webhook router, stream registry and
document pipeline live in services whose code is not part of the source tree,
so those components are modelled from the specification text.
-/

namespace NexusCore

/-- JSON values, the input domain of the zod schemas.  Numbers are modelled
as integers: the schemas only ever test whether a value *is* a number, never
its magnitude, so the carrier of numerics is irrelevant to validation. -/
inductive JVal where
  | null : JVal
  | bool (b : Bool) : JVal
  | num (n : Int) : JVal
  | str (s : String) : JVal
  | arr (xs : List JVal) : JVal
  | obj (kvs : List (String × JVal)) : JVal

namespace JVal

/-- Member lookup in a JSON object (first binding wins, as in a parsed
JavaScript object, where keys are unique). -/
def getField (kvs : List (String × JVal)) (k : String) : Option JVal :=
  match kvs with
  | [] => none
  | (k', v) :: rest => if k' = k then some v else getField rest k

def isStr : JVal → Bool
  | str _ => true
  | _ => false

def isNum : JVal → Bool
  | num _ => true
  | _ => false

def isBool : JVal → Bool
  | bool _ => true
  | _ => false

end JVal

open JVal

/-- Optional typed members, as in `z.string().optional()`: an absent member is accepted, a present
member must satisfy the type test. -/
def optionalField (kvs : List (String × JVal)) (k : String) (p : JVal → Bool) : Bool :=
  match getField kvs k with
  | none => true
  | some v => p v

/-- A required member: must be present and satisfy the type test. -/
def requiredField (kvs : List (String × JVal)) (k : String) (p : JVal → Bool) : Bool :=
  match getField kvs k with
  | none => false
  | some v => p v

/-- The enum `z.enum(['start', 'transcript', 'end'])` from `TranscriptionEventSchema`. -/
def validEventType : JVal → Bool
  | str s => s == "start" || s == "transcript" || s == "end"
  | _ => false

/-- The `data` member of `TranscriptionEventSchema`: an object whose members
`text`, `confidence`, `isFinal` are all optional but typed when present. -/
def validEventData (v : JVal) : Bool :=
  match v with
  | obj kvs =>
      optionalField kvs "text" isStr &&
      optionalField kvs "confidence" isNum &&
      optionalField kvs "isFinal" isBool
  | _ => false

/-- Embedding of `TranscriptionEventSchema` (src/unnamed/part_001): a zod
object with required members `type` (enum), `streamId` (string), `timestamp`
(number) and `data` (the object above).  Unknown members are stripped, not
rejected, which lookup-based validation reflects. -/
def validateTranscriptionEvent (j : JVal) : Bool :=
  match j with
  | obj kvs =>
      requiredField kvs "type" validEventType &&
      requiredField kvs "streamId" isStr &&
      requiredField kvs "timestamp" isNum &&
      requiredField kvs "data" validEventData
  | _ => false

/-- The enum `z.enum(['transcription_event', 'error'])` from `WebSocketMessageSchema`. -/
def validWSType : JVal → Bool
  | str s => s == "transcription_event" || s == "error"
  | _ => false

/-- Embedding of `WebSocketMessageSchema` (src/unnamed/part_001): `type` is
`z.enum(['transcription_event', 'error'])` and `payload` is
`z.union([TranscriptionEventSchema, z.string()])`. -/
def validateWSMessage (j : JVal) : Bool :=
  match j with
  | obj kvs =>
      requiredField kvs "type" validWSType &&
      requiredField kvs "payload" (fun v => validateTranscriptionEvent v || isStr v)
  | _ => false

/-! ### Spec-side characterisations of the schemas

These predicates are written from the specification's words, to be compared
with the schema embeddings above. -/

/-- The member `k`, if present, is a string. -/
def OptionalIsStr (kvs : List (String × JVal)) (k : String) : Prop :=
  ∀ v, getField kvs k = some v → ∃ s, v = str s

/-- The member `k`, if present, is a number. -/
def OptionalIsNum (kvs : List (String × JVal)) (k : String) : Prop :=
  ∀ v, getField kvs k = some v → ∃ n, v = num n

/-- The member `k`, if present, is a boolean. -/
def OptionalIsBool (kvs : List (String × JVal)) (k : String) : Prop :=
  ∀ v, getField kvs k = some v → ∃ b, v = bool b

/-- Spec-side description of the `data` member: an object whose optional
members `text` (string), `confidence` (number), `isFinal` (boolean) have the
right types when present. -/
def WellFormedEventData (v : JVal) : Prop :=
  ∃ dkvs, v = obj dkvs ∧
    OptionalIsStr dkvs "text" ∧ OptionalIsNum dkvs "confidence" ∧ OptionalIsBool dkvs "isFinal"

/-- Spec-side description of a well-formed transcription event: `type` is one
of start/transcript/end, `streamId` a string, `timestamp` a number, `data` a
well-formed data object.  No field is required conditionally on the event
type. -/
def WellFormedEvent (j : JVal) : Prop :=
  ∃ kvs, j = obj kvs ∧
    (∃ t, getField kvs "type" = some t ∧
      (t = str "start" ∨ t = str "transcript" ∨ t = str "end")) ∧
    (∃ s, getField kvs "streamId" = some (str s)) ∧
    (∃ n, getField kvs "timestamp" = some (num n)) ∧
    (∃ d, getField kvs "data" = some d ∧ WellFormedEventData d)

/-- Spec-side description of a server frame: `type` is `transcription_event`
or `error`, and `payload` is a valid transcription event or a string — with
no correlation between the two members. -/
def WSFrameShape (j : JVal) : Prop :=
  ∃ kvs, j = obj kvs ∧
    (∃ t, getField kvs "type" = some t ∧
      (t = str "transcription_event" ∨ t = str "error")) ∧
    (∃ p, getField kvs "payload" = some p ∧
      (validateTranscriptionEvent p = true ∨ ∃ s, p = str s))

/-! ### The `handleTranscriptionEvent` agent tool

Embedded from `src/apps/agent/src/mastra/tools/transcriptionTools.ts`.  The
tool's input schema admits events of type `partial_transcript`,
`final_transcript`, `named_entities`, `sentiment` (modelled by the
constructors `partTranscript`, `finTranscript`, `namedEntities`,
`sentimentEvt`), with optional `text`, `entities` and `sentiment` members. -/

mutual

/-- The string an array element contributes to `Array.prototype.join`: null
becomes empty, booleans and integers print canonically, strings pass
through, nested arrays join recursively, and plain objects print as
`[object Object]`. -/
def jsElemStr : JVal → String
  | JVal.null => ""
  | JVal.bool b => if b then "true" else "false"
  | JVal.num n => toString n
  | JVal.str s => s
  | JVal.arr ys => jsJoin ys
  | JVal.obj _ => "[object Object]"

/-- Comma-join of array elements, as `Array.prototype.join` produces for
`ToPrimitive` on an array. -/
def jsJoin : List JVal → String
  | [] => ""
  | [v] => jsElemStr v
  | v :: vs => jsElemStr v ++ "," ++ jsJoin vs

end

/-- Modelled from the spec: `Document.status` ranges over pending,
processing, processed, failed (§3); the embed stage is visible as a distinct
`embedding` state, which §4.3/§4.4 name as a stage the reconciler scans
for. -/
inductive DocStatus where
  | pending : DocStatus
  | processing : DocStatus
  | embedding : DocStatus
  | processed : DocStatus
  | failed : DocStatus
deriving DecidableEq

/-- Modelled from the spec: the per-document pipeline state the orchestrator
persists — `status`, `chunksProcessed`, `totalChunks` (unset until the chunk
stage has run), and the set of chunk indices whose vector-store write has
been acknowledged. -/
structure DocState where
  status : DocStatus
  chunksProcessed : Nat
  totalChunks : Option Nat
  acked : Finset Nat
deriving DecidableEq

/-- A freshly uploaded document: nothing extracted, chunked or acknowledged. -/
def initDoc : DocState :=
  { status := .pending, chunksProcessed := 0, totalChunks := none, acked := ∅ }

/-- Modelled from the spec: the pipeline operations of §4.3 — extraction
(success or `ExtractionError`), the chunk stage reporting its chunk count,
per-chunk embed acknowledgement, retry-exhaustion failure, explicit retry
(`failed → pending`), and a reconciler re-drive (which only re-enqueues work;
it never edits counters, §4.4). -/
inductive PipelineOp where
  | extractOk : PipelineOp
  | chunkDone (n : Nat) : PipelineOp
  | embedAck (i : Nat) : PipelineOp
  | embedFail : PipelineOp
  | failDoc : PipelineOp
  | retryDoc : PipelineOp
  | reconcileRedrive : PipelineOp
deriving DecidableEq

/-- The number of acknowledged chunk indices below the chunk count `T`. -/
def ackedBelow (acked : Finset Nat) (T : Nat) : Nat :=
  (acked.filter (· < T)).card

/-- Modelled from the spec: one orchestrator step.  Chunking with count `0`
is the successful degenerate case (`status = processed`, `totalChunks = 0`);
an embed acknowledgement advances `chunksProcessed` to the count of
acknowledged indices and moves to `processed` exactly when all chunks are
acknowledged; `failed` is reachable from every non-terminal stage; retry
resumes from the last acknowledged progress. -/
def docStep (s : DocState) (op : PipelineOp) : DocState :=
  match op with
  | .extractOk =>
      if s.status = .pending then { s with status := .processing } else s
  | .chunkDone n =>
      if s.status = .processing then
        let cp := ackedBelow s.acked n
        { s with totalChunks := some n, chunksProcessed := cp,
                 status := if cp = n then .processed else .embedding }
      else s
  | .embedAck i =>
      match s.status, s.totalChunks with
      | .embedding, some T =>
          if i < T then
            let acked := insert i s.acked
            let cp := ackedBelow acked T
            { status := if cp = T then .processed else .embedding,
              chunksProcessed := cp, totalChunks := some T, acked := acked }
          else s
      | _, _ => s
  | .embedFail =>
      if s.status = .embedding then { s with status := .failed } else s
  | .failDoc =>
      if s.status = .processed then s else { s with status := .failed }
  | .retryDoc =>
      if s.status = .failed then { s with status := .pending } else s
  | .reconcileRedrive => s

/-- Run a sequence of pipeline operations from the fresh-upload state. -/
def runPipeline (ops : List PipelineOp) : DocState :=
  ops.foldl docStep initDoc

/-! ### The chunking stage -/

/-- Modelled from the spec: the sliding-window chunker of §4.3 — repeatedly
emit a window of at most `S` characters and advance by `S - O`, the last
window absorbing the remainder.  Structured with fuel (the text length
bounds the number of windows when `O < S`). -/
def chunksFrom (S O : Nat) : Nat → List Char → List (List Char)
  | 0, _ => []
  | fuel + 1, cs =>
      if cs.length ≤ S then [cs]
      else cs.take S :: chunksFrom S O fuel (cs.drop (S - O))

/-- Split extracted text into chunks with target size `S` and overlap `O`;
zero-length input yields zero chunks. -/
def chunkText (S O : Nat) (text : String) : List String :=
  if text.data.isEmpty then []
  else (chunksFrom S O text.data.length text.data).map String.mk

/-- Ceiling division on naturals. -/
def ceilDiv (a b : Nat) : Nat :=
  (a + b - 1) / b

/-- The chunk-count formula the specification states: `0` for `L = 0`, else
`ceil((L - O) / (S - O))`. -/
def specTotalChunks (L S O : Nat) : Nat :=
  if L = 0 then 0 else ceilDiv (L - O) (S - O)

/-! ### Chunk identity and the embed-and-persist stage -/

/-- Chunk identity: `documentId + "_chunk_" + index` (§3). -/
def chunkId (documentId : String) (index : Nat) : String :=
  documentId ++ "_chunk_" ++ toString index

/-- Modelled from the spec: the chunk metadata attached to each vector-store
record (§3). -/
structure ChunkMeta where
  filename : String
  fileType : String
  documentId : String
  chunkIndex : Nat
  totalChunks : Nat
  userId : String

/-- Modelled from the spec: one vector-store record —
`(content, metadata, embedding)` stored under a `chunkId` key. -/
structure ChunkRecord where
  content : String
  embedding : List Int
  meta : ChunkMeta

/-- A vector store keyed by `chunkId`. -/
abbrev VectorStore := List (String × ChunkRecord)

/-- Modelled from the spec: upsert into the vector store — an existing record
under the same key is overwritten, otherwise the record is appended. -/
def upsertChunk (store : VectorStore) (k : String) (r : ChunkRecord) : VectorStore :=
  if store.any (fun p => p.1 == k) then
    store.map (fun p => if p.1 == k then (k, r) else p)
  else store ++ [(k, r)]

/-- Fold a batch of keyed writes through `upsertChunk`. -/
def foldUpserts (store : VectorStore) (ws : List (String × ChunkRecord)) : VectorStore :=
  ws.foldl (fun st w => upsertChunk st w.1 w.2) store

/-- The keyed writes the embed stage issues for a document: for each chunk
index, the chunk's content, its embedding from the (externally supplied)
embedding function, and its metadata, keyed by `chunkId`. -/
def embedWrites (embedF : String → List Int) (docId : String)
    (chunks : List String) (mkMeta : Nat → ChunkMeta) : List (String × ChunkRecord) :=
  (List.range chunks.length).map fun i =>
    (chunkId docId i, ⟨chunks.getD i "", embedF (chunks.getD i ""), mkMeta i⟩)

/-- Modelled from the spec: the embed-and-persist stage — upsert every
chunk's record into the vector store under its deterministic `chunkId`
(§4.3 step 3). -/
def runEmbedStage (embedF : String → List Int) (docId : String)
    (chunks : List String) (mkMeta : Nat → ChunkMeta) (store : VectorStore) : VectorStore :=
  foldUpserts store (embedWrites embedF docId chunks mkMeta)

/-- How many records the store holds under key `k`. -/
def countKey (store : VectorStore) (k : String) : Nat :=
  store.countP (fun p => p.1 == k)

/-! ### The per-document concurrency guard -/

/-- Outcome of an upload/retry request against the concurrency guard. -/
inductive RunResult where
  | accepted : RunResult
  | alreadyProcessing : RunResult
deriving DecidableEq

/-- Modelled from the spec: the at-most-one-active-run guard of §4.3 — a
request for a document with a run in flight is rejected with
`AlreadyProcessing` and changes nothing; otherwise the request is accepted
and the document becomes in flight. -/
def requestRun (inflight : List String) (docId : String) : RunResult × List String :=
  if docId ∈ inflight then (.alreadyProcessing, inflight)
  else (.accepted, docId :: inflight)

/-! ### Stream registry and event router fan-out

The router and registry live in the websocket-server service, whose code is
not part of the source tree; the model below is built from the
specification's §4.1/§4.2.  A registry maps each stream id to its ordered
subscriber list; each subscriber is a connection id with its outbound queue
of delivered events.  Every stream is implicitly present with an empty
subscriber set, which realises lazy stream creation. -/

/-- Stream registry state: per stream, the subscribers in join order, each
with the events delivered to it so far. -/
abbrev Registry (α : Type) := String → List (String × List α)

/-- Assoc-list lookup of a subscriber's queue by connection id. -/
def lookupConn {α : Type} : List (String × List α) → String → Option (List α)
  | [], _ => none
  | (c, q) :: rest, cid => if c = cid then some q else lookupConn rest cid

/-- The empty registry: every stream exists with no subscribers. -/
def emptyRegistry (α : Type) : Registry α := fun _ => []

/-- Modelled from the spec: `subscribe(streamId, connection)` — appends the
connection with an empty queue unless it is already subscribed; subscribing
to an unknown stream creates the entry lazily (§4.1). -/
def regSubscribe {α : Type} (reg : Registry α) (sid cid : String) : Registry α :=
  fun s =>
    if s = sid then
      match lookupConn (reg sid) cid with
      | some _ => reg sid
      | none => reg sid ++ [(cid, [])]
    else reg s

/-- Modelled from the spec: `unsubscribe` — removes the connection from the
stream's subscriber set. -/
def regUnsubscribe {α : Type} (reg : Registry α) (sid cid : String) : Registry α :=
  fun s =>
    if s = sid then (reg sid).filter (fun p => p.1 != cid)
    else reg s

/-- Modelled from the spec: `fanout(streamId, event)` — appends the event to
the queue of every current subscriber of that stream, and of no one else;
with zero subscribers there is nothing to deliver and nothing is buffered
(§4.1).  This variant idealizes each outbound queue as unbounded and is used
only for the properties that are insensitive to the queue bound (drops can
only remove events); `regFanoutB` below carries §4.2's bounded drop-oldest
queue and settles the exact-delivery question. -/
def regFanout {α : Type} (reg : Registry α) (sid : String) (e : α) : Registry α :=
  fun s =>
    if s = sid then (reg sid).map (fun p => (p.1, p.2 ++ [e]))
    else reg s

/-- Modelled from the spec: pushing onto a bounded outbound queue (§4.2) —
if the queue is full (at capacity `cap`) the oldest queued event, the head,
is dropped to make room for the new one.  (The spec's per-subscriber drop
counter is observability only and is not modelled.) -/
def pushBounded {α : Type} (cap : Nat) (q : List α) (e : α) : List α :=
  if q.length < cap then q ++ [e] else q.tail ++ [e]

/-- Modelled from the spec: fan-out over bounded outbound queues (§4.2) —
the event is pushed with drop-oldest at capacity `cap` onto the queue of
every current subscriber of the stream. -/
def regFanoutB {α : Type} (cap : Nat) (reg : Registry α) (sid : String) (e : α) :
    Registry α :=
  fun s =>
    if s = sid then (reg sid).map (fun p => (p.1, pushBounded cap p.2 e))
    else reg s

/-- The router-facing operations on the registry. -/
inductive RegOp (α : Type) where
  | sub (sid cid : String) : RegOp α
  | unsub (sid cid : String) : RegOp α
  | fan (sid : String) (e : α) : RegOp α
deriving DecidableEq

/-- One registry step. -/
def regStep {α : Type} (reg : Registry α) : RegOp α → Registry α
  | .sub sid cid => regSubscribe reg sid cid
  | .unsub sid cid => regUnsubscribe reg sid cid
  | .fan sid e => regFanout reg sid e

/-- Run a sequence of registry operations. -/
def runReg {α : Type} (reg : Registry α) (ops : List (RegOp α)) : Registry α :=
  ops.foldl regStep reg

/-- The events a sequence of operations fans out to stream `sid`, in
submission order. -/
def fanEventsTo {α : Type} (sid : String) (ops : List (RegOp α)) : List α :=
  ops.filterMap fun op =>
    match op with
    | .fan s e => if s = sid then some e else none
    | _ => none

/-- The orchestrator's internal invariant: `chunksProcessed` is `0` (and the
document is not `processed`) before the chunk stage has set `totalChunks`;
once `totalChunks = T` is set, `chunksProcessed` counts the acknowledged
indices below `T`, sits strictly below `T` in every non-`processed` state,
and equals `T` in the `processed` state. -/
def DocInv (s : DocState) : Prop :=
  (s.totalChunks = none → s.chunksProcessed = 0 ∧ s.status ≠ .processed) ∧
  (∀ T, s.totalChunks = some T → s.chunksProcessed = ackedBelow s.acked T) ∧
  (∀ T, s.totalChunks = some T → s.status ≠ .processed → s.chunksProcessed < T) ∧
  (∀ T, s.totalChunks = some T → s.status = .processed → s.chunksProcessed = T)

/-! ## Theorems -/

theorem requiredField_eq_true {kvs : List (String × JVal)} {k : String} {p : JVal → Bool} :
    requiredField kvs k p = true ↔ ∃ v, getField kvs k = some v ∧ p v = true := by
  unfold requiredField
  cases h : getField kvs k <;> simp

theorem optionalField_eq_true {kvs : List (String × JVal)} {k : String} {p : JVal → Bool} :
    optionalField kvs k p = true ↔ ∀ v, getField kvs k = some v → p v = true := by
  unfold optionalField
  cases h : getField kvs k <;> simp

theorem isStr_eq_true {v : JVal} : isStr v = true ↔ ∃ s, v = str s := by
  cases v <;> simp [isStr]

theorem isNum_eq_true {v : JVal} : isNum v = true ↔ ∃ n, v = num n := by
  cases v <;> simp [isNum]

theorem isBool_eq_true {v : JVal} : isBool v = true ↔ ∃ b, v = bool b := by
  cases v <;> simp [isBool]

theorem validEventType_eq_true {v : JVal} :
    validEventType v = true ↔ (v = str "start" ∨ v = str "transcript" ∨ v = str "end") := by
  cases v <;> simp [validEventType, or_assoc]

theorem validWSType_eq_true {v : JVal} :
    validWSType v = true ↔ (v = str "transcription_event" ∨ v = str "error") := by
  cases v <;> simp [validWSType]

theorem validEventData_iff {v : JVal} :
    validEventData v = true ↔ WellFormedEventData v := by
  cases v <;>
    simp [validEventData, WellFormedEventData, optionalField_eq_true,
      OptionalIsStr, OptionalIsNum, OptionalIsBool, isStr_eq_true, isNum_eq_true,
      isBool_eq_true, and_assoc]

theorem exists_some_and_isStr {o : Option JVal} :
    (∃ v, o = some v ∧ isStr v = true) ↔ ∃ s, o = some (str s) := by
  constructor
  · rintro ⟨v, hv, hs⟩
    rcases isStr_eq_true.mp hs with ⟨s, rfl⟩
    exact ⟨s, hv⟩
  · rintro ⟨s, hv⟩
    exact ⟨str s, hv, rfl⟩

theorem exists_some_and_isNum {o : Option JVal} :
    (∃ v, o = some v ∧ isNum v = true) ↔ ∃ n, o = some (num n) := by
  constructor
  · rintro ⟨v, hv, hs⟩
    rcases isNum_eq_true.mp hs with ⟨n, rfl⟩
    exact ⟨n, hv⟩
  · rintro ⟨n, hv⟩
    exact ⟨num n, hv, rfl⟩

/-- C1 counterexample: an event of type `transcript` whose `data` object
carries no `text` member is accepted by `TranscriptionEventSchema`, not
rejected — the schema has no per-type required fields. -/
theorem transcript_event_without_text_accepted :
    validateTranscriptionEvent
      (obj [("type", str "transcript"), ("streamId", str "s1"),
            ("timestamp", num 0), ("data", obj [])]) = true := by
  rfl

/-- C1 (amended): validation against `TranscriptionEventSchema` succeeds
exactly when the input is an object whose `type` is one of
start/transcript/end, `streamId` a string, `timestamp` a number, and `data`
an object whose optional members have the right types; no field is required
conditionally on the event type. -/
theorem validateTranscriptionEvent_iff_wellFormed (j : JVal) :
    validateTranscriptionEvent j = true ↔ WellFormedEvent j := by
  cases j with
  | obj kvs =>
      simp only [validateTranscriptionEvent, Bool.and_eq_true, WellFormedEvent,
        JVal.obj.injEq, exists_eq_left', requiredField_eq_true, validEventType_eq_true,
        validEventData_iff, exists_some_and_isStr, exists_some_and_isNum, and_assoc]
  | null => simp [validateTranscriptionEvent, WellFormedEvent]
  | bool b => simp [validateTranscriptionEvent, WellFormedEvent]
  | num n => simp [validateTranscriptionEvent, WellFormedEvent]
  | str s => simp [validateTranscriptionEvent, WellFormedEvent]
  | arr xs => simp [validateTranscriptionEvent, WellFormedEvent]

/-- C9: the `data` object is itself mandatory even though every member
inside it is optional — for every event type, an otherwise well-typed object
with no `data` key fails validation, and the same object with `data: {}`
passes. -/
theorem data_member_required (t sid : String) (ts : Int)
    (ht : validEventType (str t) = true) :
    validateTranscriptionEvent
      (obj [("type", str t), ("streamId", str sid), ("timestamp", num ts)]) = false ∧
    validateTranscriptionEvent
      (obj [("type", str t), ("streamId", str sid), ("timestamp", num ts),
            ("data", obj [])]) = true := by
  constructor
  · have hdata :
        getField [("type", str t), ("streamId", str sid), ("timestamp", num ts)] "data"
          = none := rfl
    simp [validateTranscriptionEvent, requiredField, hdata]
  · have htype :
        getField [("type", str t), ("streamId", str sid), ("timestamp", num ts),
          ("data", obj [])] "type" = some (str t) := rfl
    simp [validateTranscriptionEvent, requiredField, getField, htype, ht,
      validEventData, optionalField, isStr, isNum]

/-- C9 witness: the concrete transcript-typed object without `data` is
rejected and with an empty `data` object is accepted. -/
theorem data_member_required_witness :
    validateTranscriptionEvent
      (obj [("type", str "transcript"), ("streamId", str "s9"),
            ("timestamp", num 7)]) = false ∧
    validateTranscriptionEvent
      (obj [("type", str "transcript"), ("streamId", str "s9"),
            ("timestamp", num 7), ("data", obj [])]) = true :=
  data_member_required "transcript" "s9" 7 (by rfl)

/-- C7 counterexample: `WebSocketMessageSchema` accepts a frame pairing type
`transcription_event` with a plain string payload — the union payload is not
correlated with the type tag. -/
theorem ws_type_payload_uncorrelated :
    validateWSMessage
      (obj [("type", str "transcription_event"), ("payload", str "boom")]) = true := by
  rfl

/-- C7 (amended): a frame is valid for `WebSocketMessageSchema` exactly when
its `type` is `transcription_event` or `error` and its `payload` is a valid
transcription event or a string; the schema enforces no pairing between the
type tag and the payload shape. -/
theorem validateWSMessage_iff_shape (j : JVal) :
    validateWSMessage j = true ↔ WSFrameShape j := by
  cases j with
  | obj kvs =>
      simp only [validateWSMessage, Bool.and_eq_true, WSFrameShape, JVal.obj.injEq,
        exists_eq_left', requiredField_eq_true, validWSType_eq_true, Bool.or_eq_true,
        isStr_eq_true]
  | null => simp [validateWSMessage, WSFrameShape]
  | bool b => simp [validateWSMessage, WSFrameShape]
  | num n => simp [validateWSMessage, WSFrameShape]
  | str s => simp [validateWSMessage, WSFrameShape]
  | arr xs => simp [validateWSMessage, WSFrameShape]

/-- C8: the per-document concurrency guard — a fresh request for `d` is
accepted and records the in-flight run; a duplicate request while that run
is in flight receives `AlreadyProcessing` and leaves the in-flight set
unchanged, so of two concurrent requests for one document exactly one
proceeds in either interleaving. -/
theorem requestRun_single_active (inflight : List String) (d : String)
    (h : d ∉ inflight) :
    requestRun inflight d = (RunResult.accepted, d :: inflight) ∧
    requestRun (d :: inflight) d = (RunResult.alreadyProcessing, d :: inflight) := by
  constructor
  · simp [requestRun, h]
  · simp [requestRun]

/-- C8 witness: for an empty in-flight set and document `doc1`, the first
request is accepted and the concurrent duplicate is rejected. -/
theorem requestRun_single_active_witness :
    requestRun [] "doc1" = (RunResult.accepted, ["doc1"]) ∧
    requestRun ["doc1"] "doc1" = (RunResult.alreadyProcessing, ["doc1"]) :=
  requestRun_single_active [] "doc1" (by simp)

/-! ### Idempotence of the embed-and-persist stage (C4) -/

/-- A store in which no key holds more than one record. -/
def AtMostOnePerKey (store : VectorStore) : Prop :=
  ∀ k, countKey store k ≤ 1

theorem countKey_upsert_self (st : VectorStore) (k : String) (r : ChunkRecord)
    (h : countKey st k ≤ 1) : countKey (upsertChunk st k r) k = 1 := by
  have h1 : List.countP (fun p : String × ChunkRecord => p.1 == k) st ≤ 1 := h
  unfold upsertChunk countKey
  by_cases hany : st.any (fun p => p.1 == k) = true
  · simp only [hany, if_true, List.countP_map]
    have hpos : 0 < st.countP (fun p => p.1 == k) := by
      rcases List.any_eq_true.mp hany with ⟨p, hp, hpk⟩
      exact List.countP_pos_iff.mpr ⟨p, hp, hpk⟩
    have hcong :
        ((fun p : String × ChunkRecord => p.1 == k) ∘
          fun p => if p.1 == k then (k, r) else p) = fun p => p.1 == k := by
      funext p
      by_cases hb : p.1 = k
      · simp [hb]
      · simp [hb]
    rw [hcong]
    omega
  · simp only [hany, if_false, List.countP_append]
    have hzero : st.countP (fun p => p.1 == k) = 0 := by
      by_contra hne
      have hpos : 0 < st.countP (fun p => p.1 == k) := Nat.pos_of_ne_zero hne
      rcases List.countP_pos_iff.mp hpos with ⟨p, hp, hpk⟩
      exact hany (List.any_eq_true.mpr ⟨p, hp, hpk⟩)
    simp [hzero, List.countP_cons]

theorem countKey_upsert_other (st : VectorStore) (k k' : String) (r : ChunkRecord)
    (hne : k' ≠ k) : countKey (upsertChunk st k r) k' = countKey st k' := by
  have hkk : (k == k') = false := beq_eq_false_iff_ne.mpr (Ne.symm hne)
  unfold upsertChunk countKey
  by_cases hany : st.any (fun p => p.1 == k) = true
  · simp only [hany, if_true, List.countP_map]
    have hcong :
        ((fun p : String × ChunkRecord => p.1 == k') ∘
          fun p => if p.1 == k then (k, r) else p) = fun p => p.1 == k' := by
      funext p
      by_cases hb : p.1 = k
      · simp [hb, hkk]
      · simp [hb]
    rw [hcong]
  · simp [hany, List.countP_append, List.countP_cons, hkk]

theorem upsert_atMostOne (st : VectorStore) (k : String) (r : ChunkRecord)
    (h : AtMostOnePerKey st) : AtMostOnePerKey (upsertChunk st k r) := by
  intro k'
  by_cases hk : k' = k
  · subst hk
    exact Nat.le_of_eq (countKey_upsert_self st k' r (h k'))
  · rw [countKey_upsert_other st k k' r hk]
    exact h k'

theorem foldUpserts_atMostOne (ws : List (String × ChunkRecord)) :
    ∀ st : VectorStore, AtMostOnePerKey st → AtMostOnePerKey (foldUpserts st ws) := by
  induction ws with
  | nil => intro st h; exact h
  | cons w rest ih =>
      intro st h
      exact ih (upsertChunk st w.1 w.2) (upsert_atMostOne st w.1 w.2 h)

theorem foldUpserts_countKey_one (ws : List (String × ChunkRecord)) :
    ∀ st : VectorStore, AtMostOnePerKey st → ∀ k, countKey st k = 1 →
      countKey (foldUpserts st ws) k = 1 := by
  induction ws with
  | nil => intro st _ k hk; exact hk
  | cons w rest ih =>
      intro st h k hk
      have h' := upsert_atMostOne st w.1 w.2 h
      by_cases hkw : k = w.1
      · subst hkw
        exact ih _ h' w.1 (countKey_upsert_self st w.1 w.2 (h w.1))
      · refine ih _ h' k ?_
        rw [countKey_upsert_other st w.1 k w.2 hkw]
        exact hk

theorem foldUpserts_countKey_mem (ws : List (String × ChunkRecord)) :
    ∀ st : VectorStore, AtMostOnePerKey st → ∀ k, k ∈ ws.map Prod.fst →
      countKey (foldUpserts st ws) k = 1 := by
  induction ws with
  | nil => intro st _ k hk; simp at hk
  | cons w rest ih =>
      intro st h k hk
      have h' := upsert_atMostOne st w.1 w.2 h
      by_cases hkw : k = w.1
      · subst hkw
        exact foldUpserts_countKey_one rest _ h' w.1 (countKey_upsert_self st w.1 w.2 (h w.1))
      · rcases List.mem_map.mp hk with ⟨p, hp, hpk⟩
        rcases List.mem_cons.mp hp with rfl | hp'
        · exact absurd hpk.symm hkw
        · exact ih _ h' k (List.mem_map.mpr ⟨p, hp', hpk⟩)

/-- C4: chunk identity is the concatenation `documentId + "_chunk_" + index`,
a pure function of `(documentId, index)`; re-running the embed-and-persist
stage twice on the same input therefore re-upserts the same keys, and the
vector store ends with exactly one record under each chunk index's id. -/
theorem chunkWrites_idempotent (embedF : String → List Int) (docId : String)
    (chunks : List String) (mkMeta : Nat → ChunkMeta) (i : Nat)
    (hi : i < chunks.length) :
    chunkId docId i = docId ++ "_chunk_" ++ toString i ∧
    countKey
      (runEmbedStage embedF docId chunks mkMeta
        (runEmbedStage embedF docId chunks mkMeta [])) (chunkId docId i) = 1 := by
  refine ⟨rfl, ?_⟩
  have hkeys : chunkId docId i ∈ (embedWrites embedF docId chunks mkMeta).map Prod.fst := by
    refine List.mem_map.mpr ?_
    refine ⟨(chunkId docId i,
      ⟨chunks.getD i "", embedF (chunks.getD i ""), mkMeta i⟩), ?_, rfl⟩
    unfold embedWrites
    exact List.mem_map.mpr ⟨i, List.mem_range.mpr hi, rfl⟩
  have hempty : AtMostOnePerKey ([] : VectorStore) := by
    intro k
    simp [countKey]
  have hinner : AtMostOnePerKey (runEmbedStage embedF docId chunks mkMeta []) :=
    foldUpserts_atMostOne _ _ hempty
  exact foldUpserts_countKey_mem _ _ hinner _ hkeys

/-- C4 witness: a three-chunk document embedded twice holds exactly one
record under the id of chunk 1, and that id is `doc_chunk_1`. -/
theorem chunkWrites_idempotent_witness :
    1 < (["alpha", "beta", "gamma"] : List String).length ∧
    chunkId "doc" 1 = "doc" ++ "_chunk_" ++ toString 1 ∧
    countKey
      (runEmbedStage (fun _ => [0]) "doc" ["alpha", "beta", "gamma"]
        (fun j => ⟨"f.pdf", "pdf", "doc", j, 3, "u1"⟩)
        (runEmbedStage (fun _ => [0]) "doc" ["alpha", "beta", "gamma"]
          (fun j => ⟨"f.pdf", "pdf", "doc", j, 3, "u1"⟩) [])) (chunkId "doc" 1) = 1 :=
  ⟨by decide,
    chunkWrites_idempotent (fun _ => [0]) "doc" ["alpha", "beta", "gamma"]
      (fun j => ⟨"f.pdf", "pdf", "doc", j, 3, "u1"⟩) 1 (by decide)⟩

/-! ### Router fan-out ordering and no-backfill (C5, C6) -/

theorem lookupConn_map_append {α : Type} (subs : List (String × List α)) (cid : String)
    (e : α) :
    lookupConn (subs.map (fun p => (p.1, p.2 ++ [e]))) cid
      = (lookupConn subs cid).map (· ++ [e]) := by
  induction subs with
  | nil => rfl
  | cons hd tl ih =>
      rcases hd with ⟨c, q⟩
      by_cases hc : c = cid
      · simp [lookupConn, hc]
      · simp [lookupConn, hc, ih]

theorem lookupConn_append_of_some {α : Type} (s1 s2 : List (String × List α))
    (cid : String) (q : List α) (h : lookupConn s1 cid = some q) :
    lookupConn (s1 ++ s2) cid = some q := by
  induction s1 with
  | nil => simp [lookupConn] at h
  | cons hd tl ih =>
      rcases hd with ⟨c, q'⟩
      by_cases hc : c = cid
      · simp [lookupConn, hc] at h ⊢
        exact h
      · simp [lookupConn, hc] at h ⊢
        exact ih h

theorem lookupConn_append_of_none {α : Type} (s1 s2 : List (String × List α))
    (cid : String) (h : lookupConn s1 cid = none) :
    lookupConn (s1 ++ s2) cid = lookupConn s2 cid := by
  induction s1 with
  | nil => rfl
  | cons hd tl ih =>
      rcases hd with ⟨c, q'⟩
      by_cases hc : c = cid
      · simp [lookupConn, hc] at h
      · simp [lookupConn, hc] at h ⊢
        exact ih h

theorem lookupConn_filter_ne {α : Type} (subs : List (String × List α))
    (cid cid' : String) (hne : cid ≠ cid') :
    lookupConn (subs.filter (fun p => p.1 != cid')) cid = lookupConn subs cid := by
  induction subs with
  | nil => rfl
  | cons hd tl ih =>
      rcases hd with ⟨c, q⟩
      by_cases hc : c = cid
      · subst hc
        simp [lookupConn, List.filter_cons, bne_iff_ne, hne]
      · by_cases hc' : c = cid'
        · simp [List.filter_cons, hc', lookupConn, ih, Ne.symm hne]
        · simp [List.filter_cons, bne_iff_ne, hc', lookupConn, hc, ih]

theorem regSubscribe_self {α : Type} (reg : Registry α) (sid cid : String) :
    (regSubscribe reg sid cid) sid =
      (match lookupConn (reg sid) cid with
        | some _ => reg sid
        | none => reg sid ++ [(cid, [])]) := by
  simp [regSubscribe]

theorem regSubscribe_other {α : Type} (reg : Registry α) (sid cid s : String)
    (h : s ≠ sid) : (regSubscribe reg sid cid) s = reg s := by
  simp [regSubscribe, h]

theorem regUnsubscribe_self {α : Type} (reg : Registry α) (sid cid : String) :
    (regUnsubscribe reg sid cid) sid = (reg sid).filter (fun p => p.1 != cid) := by
  simp [regUnsubscribe]

theorem regUnsubscribe_other {α : Type} (reg : Registry α) (sid cid s : String)
    (h : s ≠ sid) : (regUnsubscribe reg sid cid) s = reg s := by
  simp [regUnsubscribe, h]

theorem regFanout_self {α : Type} (reg : Registry α) (sid : String) (e : α) :
    (regFanout reg sid e) sid = (reg sid).map (fun p => (p.1, p.2 ++ [e])) := by
  simp [regFanout]

theorem regFanout_other {α : Type} (reg : Registry α) (sid : String) (e : α)
    (s : String) (h : s ≠ sid) : (regFanout reg sid e) s = reg s := by
  simp [regFanout, h]

theorem regFanout_lookup {α : Type} (reg : Registry α) (sid cid : String) (e : α)
    (q : List α) (h : lookupConn (reg sid) cid = some q) :
    lookupConn ((regFanout reg sid e) sid) cid = some (q ++ [e]) := by
  simp [regFanout, lookupConn_map_append, h]

theorem lookupConn_map_apply {α : Type} (f : List α → List α)
    (subs : List (String × List α)) (cid : String) :
    lookupConn (subs.map (fun p => (p.1, f p.2))) cid
      = (lookupConn subs cid).map f := by
  induction subs with
  | nil => rfl
  | cons hd tl ih =>
      rcases hd with ⟨c, q⟩
      by_cases hc : c = cid
      · simp [lookupConn, hc]
      · simp [lookupConn, hc, ih]

theorem regFanoutB_lookup {α : Type} (cap : Nat) (reg : Registry α)
    (sid cid : String) (e : α) (q : List α)
    (h : lookupConn (reg sid) cid = some q) :
    lookupConn ((regFanoutB cap reg sid e) sid) cid
      = some (pushBounded cap q e) := by
  have hmap := lookupConn_map_apply (fun l => pushBounded cap l e) (reg sid) cid
  simp [regFanoutB, hmap, h]

theorem suffix_append_right {α : Type} {s t : List α} (h : s <:+ t) (u : List α) :
    s ++ u <:+ t ++ u := by
  rcases h with ⟨w, hw⟩
  exact ⟨w, by rw [← hw, List.append_assoc]⟩

theorem pushBounded_suffix {α : Type} (cap : Nat) (q : List α) (e : α) :
    pushBounded cap q e <:+ q ++ [e] := by
  unfold pushBounded
  by_cases h : q.length < cap
  · rw [if_pos h]
  · rw [if_neg h]
    exact suffix_append_right (List.tail_suffix q) [e]

theorem boundedFanout_exact {α : Type} (cap : Nat) (evs : List α) :
    ∀ (reg : Registry α) (sid cid : String) (q : List α),
      lookupConn (reg sid) cid = some q → q.length + evs.length ≤ cap →
      lookupConn ((evs.foldl (fun r e => regFanoutB cap r sid e) reg) sid) cid
        = some (q ++ evs) := by
  induction evs with
  | nil =>
      intro reg sid cid q h _
      simpa using h
  | cons e rest ih =>
      intro reg sid cid q h hle
      simp only [List.length_cons] at hle
      have hq : q.length < cap := by omega
      have hpush : pushBounded cap q e = q ++ [e] := by
        unfold pushBounded
        rw [if_pos hq]
      have hstep := regFanoutB_lookup cap reg sid cid e q h
      rw [hpush] at hstep
      have hle' : (q ++ [e]).length + rest.length ≤ cap := by
        simp only [List.length_append, List.length_cons, List.length_nil]
        omega
      have := ih (regFanoutB cap reg sid e) sid cid (q ++ [e]) hstep hle'
      simpa [List.append_assoc] using this

theorem boundedFanout_suffix {α : Type} (cap : Nat) (evs : List α) :
    ∀ (reg : Registry α) (sid cid : String) (q : List α),
      lookupConn (reg sid) cid = some q →
      ∃ q', lookupConn ((evs.foldl (fun r e => regFanoutB cap r sid e) reg) sid) cid
          = some q' ∧ q' <:+ q ++ evs := by
  induction evs with
  | nil =>
      intro reg sid cid q h
      exact ⟨q, by simpa using h, by simp⟩
  | cons e rest ih =>
      intro reg sid cid q h
      have hstep := regFanoutB_lookup cap reg sid cid e q h
      rcases ih (regFanoutB cap reg sid e) sid cid _ hstep with ⟨q', hq', hsuf⟩
      refine ⟨q', by simpa using hq', ?_⟩
      have h1 : pushBounded cap q e ++ rest <:+ (q ++ [e]) ++ rest :=
        suffix_append_right (pushBounded_suffix cap q e) rest
      have h2 : (q ++ [e]) ++ rest = q ++ e :: rest := by simp
      exact h2 ▸ hsuf.trans h1

/-- C5 counterexample: with queue capacity `1`, a subscriber that is live
for the whole two-event sequence `[1, 2]` ends holding only `[2]` — the
bounded drop-oldest queue of §4.2 discarded the first event — so a live
subscriber does not always receive exactly the submitted events. -/
theorem slow_subscriber_drops_events :
    lookupConn
      ((regFanoutB 1 (regFanoutB 1 (regSubscribe (emptyRegistry Nat) "s" "c")
        "s" 1) "s" 2) "s") "c" = some [2] ∧
    ([2] : List Nat) ≠ [1, 2] := by
  exact ⟨rfl, by decide⟩

/-- C5 (amended): the bounded fan-out never reorders a stream's events — a
subscriber live for a whole submitted sequence always holds an in-order
suffix of what it had followed by the submitted events (drop-oldest removes
only from the front) — and whenever its queue has room for the whole
sequence (no overflow, i.e. the subscriber is keeping up) it receives
exactly the submitted events in submission order. -/
theorem bounded_fanout_order {α : Type} (cap : Nat) (reg : Registry α)
    (sid cid : String) (q evs : List α)
    (h : lookupConn (reg sid) cid = some q) :
    (q.length + evs.length ≤ cap →
      lookupConn ((evs.foldl (fun r e => regFanoutB cap r sid e) reg) sid) cid
        = some (q ++ evs)) ∧
    (∃ q', lookupConn ((evs.foldl (fun r e => regFanoutB cap r sid e) reg) sid) cid
        = some q' ∧ q' <:+ q ++ evs) :=
  ⟨fun hle => boundedFanout_exact cap evs reg sid cid q h hle,
   boundedFanout_suffix cap evs reg sid cid q h⟩

/-- C5 witness: with capacity `2` and a fresh subscriber of stream `s`, the
two-event sequence `[1, 2]` fits and is delivered exactly and in order. -/
theorem bounded_fanout_order_witness :
    lookupConn ((regSubscribe (emptyRegistry Nat) "s" "c") "s") "c" = some [] ∧
    ((([] : List Nat).length + ([1, 2] : List Nat).length ≤ 2 →
      lookupConn (([1, 2].foldl (fun r e => regFanoutB 2 r "s" e)
        (regSubscribe (emptyRegistry Nat) "s" "c")) "s") "c"
        = some (([] : List Nat) ++ [1, 2])) ∧
     (∃ q', lookupConn (([1, 2].foldl (fun r e => regFanoutB 2 r "s" e)
        (regSubscribe (emptyRegistry Nat) "s" "c")) "s") "c" = some q' ∧
        q' <:+ ([] : List Nat) ++ [1, 2])) :=
  ⟨rfl, bounded_fanout_order 2 (regSubscribe (emptyRegistry Nat) "s" "c")
    "s" "c" [] [1, 2] rfl⟩

theorem fanEventsTo_cons {α : Type} (sid : String) (op : RegOp α)
    (rest : List (RegOp α)) :
    fanEventsTo sid (op :: rest) = fanEventsTo sid [op] ++ fanEventsTo sid rest := by
  cases op with
  | sub sid' cid' => simp [fanEventsTo]
  | unsub sid' cid' => simp [fanEventsTo]
  | fan sid' e =>
      by_cases hs : sid' = sid
      · simp [fanEventsTo, hs]
      · simp [fanEventsTo, hs]

theorem regStep_lookup {α : Type} (reg : Registry α) (sid cid : String) (q : List α)
    (op : RegOp α) (h : lookupConn (reg sid) cid = some q)
    (hop : op ≠ .unsub sid cid) :
    lookupConn ((regStep reg op) sid) cid = some (q ++ fanEventsTo sid [op]) := by
  cases op with
  | sub sid' cid' =>
      have hfan : fanEventsTo sid [RegOp.sub sid' cid'] = ([] : List α) := rfl
      rw [hfan, List.append_nil]
      show lookupConn ((regSubscribe reg sid' cid') sid) cid = some q
      by_cases hs : sid = sid'
      · subst hs
        rw [regSubscribe_self]
        cases hl : lookupConn (reg sid) cid' with
        | some q' => exact h
        | none => exact lookupConn_append_of_some _ _ _ _ h
      · rw [regSubscribe_other _ _ _ _ hs]
        exact h
  | unsub sid' cid' =>
      have hfan : fanEventsTo sid [RegOp.unsub sid' cid'] = ([] : List α) := rfl
      rw [hfan, List.append_nil]
      show lookupConn ((regUnsubscribe reg sid' cid') sid) cid = some q
      by_cases hs : sid = sid'
      · subst hs
        have hcc : cid ≠ cid' := by
          intro hcc
          exact hop (by rw [hcc])
        rw [regUnsubscribe_self, lookupConn_filter_ne _ _ _ hcc]
        exact h
      · rw [regUnsubscribe_other _ _ _ _ hs]
        exact h
  | fan sid' e =>
      by_cases hs : sid' = sid
      · subst hs
        have hfan : fanEventsTo sid' [RegOp.fan sid' e] = [e] := by
          simp [fanEventsTo]
        rw [hfan]
        exact regFanout_lookup reg sid' cid e q h
      · have hfan : fanEventsTo sid [RegOp.fan sid' e] = ([] : List α) := by
          simp [fanEventsTo, hs]
        rw [hfan, List.append_nil]
        show lookupConn ((regFanout reg sid' e) sid) cid = some q
        rw [regFanout_other _ _ _ _ (Ne.symm hs)]
        exact h

theorem runReg_lookup {α : Type} (ops : List (RegOp α)) (reg : Registry α)
    (sid cid : String) (q : List α) (h : lookupConn (reg sid) cid = some q)
    (hops : RegOp.unsub sid cid ∉ ops) :
    lookupConn ((runReg reg ops) sid) cid = some (q ++ fanEventsTo sid ops) := by
  induction ops generalizing reg q with
  | nil => simpa [runReg, fanEventsTo] using h
  | cons op rest ih =>
      have hop : op ≠ RegOp.unsub sid cid := by
        intro hx
        exact hops (by rw [hx]; exact List.mem_cons_self _ _)
      have hrest : RegOp.unsub sid cid ∉ rest := fun hx => hops (List.mem_cons_of_mem _ hx)
      have hstep := regStep_lookup reg sid cid q op h hop
      have := ih (regStep reg op) _ hstep hrest
      rw [fanEventsTo_cons]
      simpa [runReg, List.append_assoc] using this

/-- C6: fan-out to a stream with zero subscribers is a successful no-op —
the registry is unchanged, nothing is buffered — and a subscriber that joins
after earlier events have been routed receives exactly (and only) the events
fanned out to the stream after it joined, as long as it stays subscribed. -/
theorem no_backfill {α : Type} (reg0 : Registry α) (sid cid : String)
    (ops1 ops2 : List (RegOp α)) (e : α)
    (hjoin : lookupConn ((runReg reg0 ops1) sid) cid = none)
    (hstay : RegOp.unsub sid cid ∉ ops2) :
    (∀ reg : Registry α, reg sid = [] → regFanout reg sid e = reg) ∧
    lookupConn
      ((runReg (regStep (runReg reg0 ops1) (RegOp.sub sid cid)) ops2) sid) cid
      = some (fanEventsTo sid ops2) := by
  constructor
  · intro reg hreg
    funext s
    by_cases hs : s = sid
    · subst hs
      simp [regFanout, hreg]
    · simp [regFanout, hs]
  · have hsub :
        lookupConn ((regStep (runReg reg0 ops1) (RegOp.sub sid cid)) sid) cid
          = some [] := by
      show lookupConn ((regSubscribe (runReg reg0 ops1) sid cid) sid) cid = some []
      rw [regSubscribe_self, hjoin]
      show lookupConn ((runReg reg0 ops1) sid ++ [(cid, [])]) cid = some []
      rw [lookupConn_append_of_none _ _ _ hjoin]
      simp [lookupConn]
    have := runReg_lookup ops2 _ sid cid [] hsub hstay
    simpa using this

/-- C6 witness: one event is routed on stream `s` before `c` subscribes and
one after; `c` receives only the later event. -/
theorem no_backfill_witness :
    lookupConn ((runReg (emptyRegistry Nat) [RegOp.fan "s" 1]) "s") "c" = none ∧
    RegOp.unsub "s" "c" ∉ ([RegOp.fan "s" 2] : List (RegOp Nat)) ∧
    lookupConn
      ((runReg (regStep (runReg (emptyRegistry Nat) [RegOp.fan "s" 1])
        (RegOp.sub "s" "c")) [RegOp.fan "s" 2]) "s") "c"
      = some (fanEventsTo "s" ([RegOp.fan "s" 2] : List (RegOp Nat))) :=
  ⟨rfl, by decide,
    (no_backfill (emptyRegistry Nat) "s" "c" [RegOp.fan "s" 1] [RegOp.fan "s" 2] 0
      rfl (by decide)).2⟩

/-! ### The pipeline counters invariant (C2) -/

theorem ackedBelow_le (a : Finset Nat) (T : Nat) : ackedBelow a T ≤ T := by
  unfold ackedBelow
  have hsub : a.filter (· < T) ⊆ Finset.range T := by
    intro i hi
    exact Finset.mem_range.mpr (Finset.mem_filter.mp hi).2
  calc (a.filter (· < T)).card ≤ (Finset.range T).card := Finset.card_le_card hsub
    _ = T := Finset.card_range T

theorem ackedBelow_eq_iff (a : Finset Nat) (T : Nat) :
    ackedBelow a T = T ↔ ∀ i < T, i ∈ a := by
  unfold ackedBelow
  constructor
  · intro h i hi
    have hsub : a.filter (· < T) ⊆ Finset.range T := by
      intro j hj
      exact Finset.mem_range.mpr (Finset.mem_filter.mp hj).2
    have heq : a.filter (· < T) = Finset.range T :=
      Finset.eq_of_subset_of_card_le hsub (by rw [h, Finset.card_range])
    have hmem : i ∈ a.filter (· < T) := by
      rw [heq]
      exact Finset.mem_range.mpr hi
    exact (Finset.mem_filter.mp hmem).1
  · intro h
    have heq : a.filter (· < T) = Finset.range T := by
      apply Finset.Subset.antisymm
      · intro j hj
        exact Finset.mem_range.mpr (Finset.mem_filter.mp hj).2
      · intro j hj
        have hjT := Finset.mem_range.mp hj
        exact Finset.mem_filter.mpr ⟨h j hjT, hjT⟩
    rw [heq, Finset.card_range]

theorem docInv_init : DocInv initDoc :=
  ⟨fun _ => ⟨rfl, by decide⟩,
   fun T hT => Option.noConfusion hT,
   fun T hT => Option.noConfusion hT,
   fun T hT => Option.noConfusion hT⟩

theorem docInv_step (s : DocState) (op : PipelineOp) (h : DocInv s) :
    DocInv (docStep s op) := by
  obtain ⟨st, cp, tc, ak⟩ := s
  obtain ⟨h1, h2, h3, h4⟩ := h
  cases op with
  | extractOk =>
      by_cases hp : st = DocStatus.pending
      · subst hp
        show DocInv ⟨DocStatus.processing, cp, tc, ak⟩
        exact ⟨fun hn => ⟨(h1 hn).1,
            (by decide : DocStatus.processing ≠ DocStatus.processed)⟩, h2,
          fun T hT _ => h3 T hT (by decide : DocStatus.pending ≠ DocStatus.processed),
          fun T hT habs =>
            absurd habs (by decide : DocStatus.processing ≠ DocStatus.processed)⟩
      · simp only [docStep, if_neg hp]
        exact ⟨h1, h2, h3, h4⟩
  | chunkDone n =>
      by_cases hp : st = DocStatus.processing
      · subst hp
        show DocInv ⟨(if ackedBelow ak n = n then DocStatus.processed else DocStatus.embedding),
          ackedBelow ak n, some n, ak⟩
        refine ⟨fun hn => Option.noConfusion hn, ?_, ?_, ?_⟩
        · intro T hT
          cases hT
          rfl
        · intro T hT hnp
          cases hT
          by_cases hfull : ackedBelow ak n = n
          · rw [if_pos hfull] at hnp
            exact absurd rfl hnp
          · exact lt_of_le_of_ne (ackedBelow_le ak n) hfull
        · intro T hT hps
          cases hT
          by_cases hfull : ackedBelow ak n = n
          · exact hfull
          · rw [if_neg hfull] at hps
            exact absurd hps (by decide : DocStatus.embedding ≠ DocStatus.processed)
      · simp only [docStep, if_neg hp]
        exact ⟨h1, h2, h3, h4⟩
  | embedAck i =>
      cases st <;> cases tc <;> try exact ⟨h1, h2, h3, h4⟩
      case embedding.some T =>
        by_cases hi : i < T
        · have hred :
              docStep ⟨DocStatus.embedding, cp, some T, ak⟩ (PipelineOp.embedAck i) =
                ⟨(if ackedBelow (insert i ak) T = T then DocStatus.processed
                  else DocStatus.embedding),
                 ackedBelow (insert i ak) T, some T, insert i ak⟩ := by
            simp [docStep, hi]
          rw [hred]
          refine ⟨fun hn => Option.noConfusion hn, ?_, ?_, ?_⟩
          · intro T' hT'
            cases hT'
            rfl
          · intro T' hT' hnp
            cases hT'
            by_cases hfull : ackedBelow (insert i ak) T = T
            · rw [if_pos hfull] at hnp
              exact absurd rfl hnp
            · exact lt_of_le_of_ne (ackedBelow_le _ _) hfull
          · intro T' hT' hps
            cases hT'
            by_cases hfull : ackedBelow (insert i ak) T = T
            · exact hfull
            · rw [if_neg hfull] at hps
              exact absurd hps (by decide : DocStatus.embedding ≠ DocStatus.processed)
        · have hred :
              docStep ⟨DocStatus.embedding, cp, some T, ak⟩ (PipelineOp.embedAck i) =
                ⟨DocStatus.embedding, cp, some T, ak⟩ := by
            simp [docStep, hi]
          rw [hred]
          exact ⟨h1, h2, h3, h4⟩
  | embedFail =>
      by_cases hp : st = DocStatus.embedding
      · subst hp
        show DocInv ⟨DocStatus.failed, cp, tc, ak⟩
        exact ⟨fun hn => ⟨(h1 hn).1,
            (by decide : DocStatus.failed ≠ DocStatus.processed)⟩, h2,
          fun T hT _ => h3 T hT (by decide : DocStatus.embedding ≠ DocStatus.processed),
          fun T hT habs =>
            absurd habs (by decide : DocStatus.failed ≠ DocStatus.processed)⟩
      · simp only [docStep, if_neg hp]
        exact ⟨h1, h2, h3, h4⟩
  | failDoc =>
      by_cases hp : st = DocStatus.processed
      · simp only [docStep, if_pos hp]
        exact ⟨h1, h2, h3, h4⟩
      · simp only [docStep, if_neg hp]
        exact ⟨fun hn => ⟨(h1 hn).1,
            (by decide : DocStatus.failed ≠ DocStatus.processed)⟩, h2,
          fun T hT _ => h3 T hT hp,
          fun T hT habs =>
            absurd habs (by decide : DocStatus.failed ≠ DocStatus.processed)⟩
  | retryDoc =>
      by_cases hp : st = DocStatus.failed
      · subst hp
        show DocInv ⟨DocStatus.pending, cp, tc, ak⟩
        exact ⟨fun hn => ⟨(h1 hn).1,
            (by decide : DocStatus.pending ≠ DocStatus.processed)⟩, h2,
          fun T hT _ => h3 T hT (by decide : DocStatus.failed ≠ DocStatus.processed),
          fun T hT habs =>
            absurd habs (by decide : DocStatus.pending ≠ DocStatus.processed)⟩
      · simp only [docStep, if_neg hp]
        exact ⟨h1, h2, h3, h4⟩
  | reconcileRedrive => exact ⟨h1, h2, h3, h4⟩

theorem docInv_run (ops : List PipelineOp) :
    ∀ s : DocState, DocInv s → DocInv (ops.foldl docStep s) := by
  induction ops with
  | nil => intro s h; exact h
  | cons op rest ih =>
      intro s h
      exact ih _ (docInv_step s op h)

/-- C2: after every sequence of pipeline operations from a fresh upload,
`chunksProcessed` never exceeds `totalChunks` (and is `0` while
`totalChunks` is still unset), and the document's status is `processed`
exactly when `chunksProcessed` equals `totalChunks` and the vector-store
write of every chunk index has been acknowledged. -/
theorem pipeline_counts_invariant (ops : List PipelineOp) :
    (∀ T, (runPipeline ops).totalChunks = some T →
      (runPipeline ops).chunksProcessed ≤ T) ∧
    ((runPipeline ops).totalChunks = none → (runPipeline ops).chunksProcessed = 0) ∧
    ((runPipeline ops).status = DocStatus.processed ↔
      ∃ T, (runPipeline ops).totalChunks = some T ∧
        (runPipeline ops).chunksProcessed = T ∧
        ∀ i < T, i ∈ (runPipeline ops).acked) := by
  obtain ⟨h1, h2, h3, h4⟩ := docInv_run ops initDoc docInv_init
  simp only [runPipeline]
  refine ⟨?_, fun hn => (h1 hn).1, ?_⟩
  · intro T hT
    rw [h2 T hT]
    exact ackedBelow_le _ _
  · constructor
    · intro hps
      cases htc : (List.foldl docStep initDoc ops).totalChunks with
      | none => exact absurd hps (h1 htc).2
      | some T =>
          refine ⟨T, rfl, h4 T htc hps, ?_⟩
          have hcp := h2 T htc
          have hcpT := h4 T htc hps
          have hfull : ackedBelow (List.foldl docStep initDoc ops).acked T = T := by
            rw [← hcp]
            exact hcpT
          exact fun i hi => (ackedBelow_eq_iff _ _).mp hfull i hi
    · rintro ⟨T, hT, hcpT, hall⟩
      by_contra hnp
      exact absurd hcpT (Nat.ne_of_lt (h3 T hT hnp))

/-! ### Chunk counting (C3) -/

theorem ceilDiv_eq_one {a d : Nat} (h1 : 1 ≤ a) (h2 : a ≤ d) : ceilDiv a d = 1 := by
  unfold ceilDiv
  have hd : 0 < d := Nat.lt_of_lt_of_le h1 h2
  apply Nat.le_antisymm
  · have hlt : a + d - 1 < 2 * d := by omega
    have := (Nat.div_lt_iff_lt_mul hd).mpr (by omega : a + d - 1 < 2 * d)
    omega
  · exact (Nat.le_div_iff_mul_le hd).mpr (by omega)

theorem ceilDiv_add_self {a d : Nat} (hd : 0 < d) :
    ceilDiv (a + d) d = ceilDiv a d + 1 := by
  unfold ceilDiv
  have h : a + d + d - 1 = a + d - 1 + d := by omega
  rw [h, Nat.add_div_right _ hd]

theorem chunksFrom_length {S O : Nat} (hSO : O < S) :
    ∀ (fuel : Nat) (cs : List Char), cs ≠ [] → cs.length ≤ fuel →
      (chunksFrom S O fuel cs).length =
        if cs.length ≤ O then 1 else ceilDiv (cs.length - O) (S - O) := by
  intro fuel
  induction fuel with
  | zero =>
      intro cs hne hl
      exact absurd (List.length_eq_zero.mp (Nat.le_zero.mp hl)) hne
  | succ f ih =>
      intro cs hne hl
      by_cases hS : cs.length ≤ S
      · simp only [chunksFrom, if_pos hS, List.length_singleton]
        by_cases hO : cs.length ≤ O
        · rw [if_pos hO]
        · rw [if_neg hO]
          have h1 : 1 ≤ cs.length - O := by omega
          have h2 : cs.length - O ≤ S - O := by omega
          exact (ceilDiv_eq_one h1 h2).symm
      · simp only [chunksFrom, if_neg hS, List.length_cons]
        have hlen_drop : (cs.drop (S - O)).length = cs.length - (S - O) :=
          List.length_drop _ _
        have hne' : cs.drop (S - O) ≠ [] := by
          intro hx
          have hx0 : cs.length - (S - O) = 0 := by
            rw [← hlen_drop, hx]
            rfl
          omega
        have hl' : (cs.drop (S - O)).length ≤ f := by
          rw [hlen_drop]
          omega
        rw [ih (cs.drop (S - O)) hne' hl', hlen_drop]
        have hOlt : ¬ cs.length ≤ O := by omega
        have hO'lt : ¬ cs.length - (S - O) ≤ O := by omega
        rw [if_neg hOlt, if_neg hO'lt]
        have harith : cs.length - O = (cs.length - (S - O) - O) + (S - O) := by omega
        rw [harith, ceilDiv_add_self (by omega : 0 < S - O)]

/-- C3 (amended): with overlap `O` below chunk size `S`, the chunker is a
pure function of `(text, S, O)` whose chunk count is `0` for empty text,
`ceil((L - O)/(S - O))` for `L > O`, and `1` — not the formula's `0` — for
the short texts `0 < L ≤ O`; and a zero-length input drives the pipeline to
the successful degenerate state `status = processed`, `totalChunks = 0`. -/
theorem chunkText_count (S O : Nat) (text : String) (hSO : O < S) :
    (chunkText S O text).length =
      (if text.length = 0 then 0
       else if text.length ≤ O then 1
       else ceilDiv (text.length - O) (S - O)) ∧
    chunkText S O "" = [] ∧
    (runPipeline [PipelineOp.extractOk,
      PipelineOp.chunkDone (chunkText S O "").length]).status = DocStatus.processed ∧
    (runPipeline [PipelineOp.extractOk,
      PipelineOp.chunkDone (chunkText S O "").length]).totalChunks = some 0 := by
  refine ⟨?_, rfl, rfl, rfl⟩
  unfold chunkText
  by_cases h0 : text.data.isEmpty
  · have hdata : text.data = [] := by
      cases hd : text.data with
      | nil => rfl
      | cons c t =>
          rw [hd] at h0
          simp [List.isEmpty] at h0
    have hlen : text.length = 0 := by
      show text.data.length = 0
      rw [hdata]
      rfl
    rw [if_pos h0]
    simp [hlen]
  · have hne : text.data ≠ [] := by
      intro hx
      rw [hx] at h0
      simp [List.isEmpty] at h0
    have hlen0 : ¬ text.length = 0 := by
      show ¬ text.data.length = 0
      simpa using fun hx => hne (List.length_eq_zero.mp hx)
    rw [if_neg h0, List.length_map,
      chunksFrom_length hSO text.data.length text.data hne (Nat.le_refl _),
      if_neg hlen0]
    rfl

/-- C3 counterexample: for the one-character text `a` with `S = 10`,
`O = 5`, the chunker must emit one chunk, while the claimed formula
`ceil((L - O)/(S - O))` evaluates to zero — the formula undercounts every
text with `0 < L ≤ O`. -/
theorem chunk_formula_fails_on_short_text :
    (chunkText 10 5 "a").length = 1 ∧ specTotalChunks ("a".length) 10 5 = 0 := by
  constructor
  · rfl
  · rfl

/-- C3 witness: at `S = 10`, `O = 5` and the three-character text `abc` the
amended count formula and the degenerate empty-input behaviour hold. -/
theorem chunkText_count_witness :
    (5 : Nat) < 10 ∧
    ((chunkText 10 5 "abc").length =
      (if "abc".length = 0 then 0
       else if "abc".length ≤ 5 then 1
       else ceilDiv ("abc".length - 5) (10 - 5)) ∧
     chunkText 10 5 "" = [] ∧
     (runPipeline [PipelineOp.extractOk,
       PipelineOp.chunkDone (chunkText 10 5 "").length]).status = DocStatus.processed ∧
     (runPipeline [PipelineOp.extractOk,
       PipelineOp.chunkDone (chunkText 10 5 "").length]).totalChunks = some 0) :=
  ⟨by decide, chunkText_count 10 5 "abc" (by decide)⟩

end NexusCore
